import Mathlib

/-!
Verification of `cex-orderbook-collector-rs` against its specification.

The Rust sources are shallowly embedded:
* Rust `String` / `&str` values are embedded as `List Char` (`RStr`);
* the registry maps (`HashMap<String, JoinHandle>` / `HashMap<String, Arc<AtomicBool>>`)
  become association lists with map semantics (lookup finds the unique binding);
* spawned thread handles and shared `AtomicBool` flags are identified by
  freshly allocated natural numbers, so that task identity and flag identity
  are observable;
* file-system effects are recorded as an explicit write log;
* the concurrent worker/stop interaction is modelled by an interleaving
  small-step transition system.
-/

/-- Rust strings, embedded as lists of characters. -/
abbrev RStr := List Char

/-! ## `src/ticker.rs` -/

/-- `Ticker { base, quote }` from `src/ticker.rs`. -/
structure Ticker where
  base : RStr
  quote : RStr
  deriving DecidableEq

/-- `Ticker::new`: find the first `'_'`; the slice before it is `base`,
the slice after it is `quote`; `None` when no `'_'` occurs. -/
def Ticker.new (symbol : RStr) : Option Ticker :=
  if '_' ∈ symbol then
    some { base := symbol.takeWhile (fun c => c ≠ '_'),
           quote := (symbol.dropWhile (fun c => c ≠ '_')).tail }
  else
    none

/-- `Ticker::to_string`: `format!("{}_{}", base, quote)`. -/
def Ticker.toString (t : Ticker) : RStr := t.base ++ '_' :: t.quote

lemma takeWhile_append_sep (b q : RStr) (hb : '_' ∉ b) :
    (b ++ '_' :: q).takeWhile (fun c => c ≠ '_') = b := by
  induction b with
  | nil =>
      rw [List.nil_append, List.takeWhile_cons_of_neg]
      simp
  | cons c b ih =>
      have hc : c ≠ '_' := fun h => hb (h ▸ List.mem_cons_self c b)
      have hb' : '_' ∉ b := fun h => hb (List.mem_cons_of_mem c h)
      rw [List.cons_append, List.takeWhile_cons_of_pos (by simpa using hc), ih hb']

lemma dropWhile_append_sep (b q : RStr) (hb : '_' ∉ b) :
    (b ++ '_' :: q).dropWhile (fun c => c ≠ '_') = '_' :: q := by
  induction b with
  | nil =>
      rw [List.nil_append, List.dropWhile_cons_of_neg]
      simp
  | cons c b ih =>
      have hc : c ≠ '_' := fun h => hb (h ▸ List.mem_cons_self c b)
      have hb' : '_' ∉ b := fun h => hb (List.mem_cons_of_mem c h)
      rw [List.cons_append, List.dropWhile_cons_of_pos (by simpa using hc), ih hb']

lemma split_reconstruct (s : RStr) (h : '_' ∈ s) :
    s.takeWhile (fun c => c ≠ '_') ++ '_' :: (s.dropWhile (fun c => c ≠ '_')).tail = s := by
  induction s with
  | nil => cases h
  | cons c s ih =>
      by_cases hc : c = '_'
      · subst hc
        rw [List.takeWhile_cons_of_neg (by simp), List.dropWhile_cons_of_neg (by simp)]
        rfl
      · have h' : '_' ∈ s := by
          rcases List.mem_cons.mp h with h1 | h1
          · exact absurd h1.symm hc
          · exact h1
        rw [List.takeWhile_cons_of_pos (by simpa using hc),
          List.dropWhile_cons_of_pos (by simpa using hc), List.cons_append, ih h']

lemma sep_not_mem_takeWhile (s : RStr) :
    '_' ∉ s.takeWhile (fun c => c ≠ '_') := by
  intro h
  have := List.mem_takeWhile_imp h
  simp at this

/-- C7: for a symbol containing exactly one separator `_`, `Ticker::new`
returns the substrings before and after the separator as `base`/`quote`;
for a string with no separator it returns `None`. -/
theorem C7_parse_split_or_none :
    (∀ b q : RStr, '_' ∉ b → '_' ∉ q →
        Ticker.new (b ++ '_' :: q) = some { base := b, quote := q }) ∧
    (∀ s : RStr, '_' ∉ s → Ticker.new s = none) := by
  constructor
  · intro b q hb _
    have hmem : '_' ∈ b ++ '_' :: q := List.mem_append_right b (List.mem_cons_self _ _)
    unfold Ticker.new
    rw [if_pos hmem, takeWhile_append_sep b q hb, dropWhile_append_sep b q hb]
    rfl
  · intro s hs
    simp [Ticker.new, hs]

/-- Witness for C7 at the concrete symbols `"BTC_USDT"` and `"BTCUSDT"`. -/
theorem C7_parse_split_or_none_witness :
    ('_' ∉ ("BTC".toList : RStr) ∧ '_' ∉ ("USDT".toList : RStr) ∧
      Ticker.new ("BTC".toList ++ '_' :: "USDT".toList) =
        some { base := "BTC".toList, quote := "USDT".toList }) ∧
    ('_' ∉ ("BTCUSDT".toList : RStr) ∧ Ticker.new "BTCUSDT".toList = none) :=
  ⟨⟨by decide, by decide,
      C7_parse_split_or_none.1 "BTC".toList "USDT".toList (by decide) (by decide)⟩,
   ⟨by decide, C7_parse_split_or_none.2 "BTCUSDT".toList (by decide)⟩⟩

/-- C8 counterexample: `Ticker::new "_USDT"` succeeds with an **empty** base,
so it is not true that every successfully constructed `Ticker` has non-empty
`base` and `quote`. -/
theorem C8_counterexample :
    ¬ (∀ t, Ticker.new ('_' :: "USDT".toList) = some t →
          t.base ≠ [] ∧ t.quote ≠ []) :=
  fun h => (h { base := [], quote := "USDT".toList } (by decide)).1 rfl

/-- C8 (amended): a successfully constructed `Ticker` has a separator-free
`base`, and `base ++ "_" ++ quote` reconstructs the input symbol; `base` or
`quote` may be empty. -/
theorem C8_parse_invariant :
    ∀ (s : RStr) (t : Ticker), Ticker.new s = some t →
      '_' ∉ t.base ∧ Ticker.toString t = s := by
  intro s t h
  unfold Ticker.new at h
  by_cases hs : '_' ∈ s
  · simp only [hs, if_pos] at h
    cases h
    exact ⟨sep_not_mem_takeWhile s, split_reconstruct s hs⟩
  · simp [hs] at h

/-- Witness for C8 (amended) at the concrete symbol `"_USDT"`. -/
theorem C8_parse_invariant_witness :
    Ticker.new ('_' :: "USDT".toList) = some { base := [], quote := "USDT".toList } ∧
    ('_' ∉ (Ticker.mk [] "USDT".toList).base ∧
      Ticker.toString (Ticker.mk [] "USDT".toList) = '_' :: "USDT".toList) :=
  ⟨by decide,
   C8_parse_invariant ('_' :: "USDT".toList) (Ticker.mk [] "USDT".toList) (by decide)⟩

/-- C10: for every symbol containing at least one `_`, `Ticker::new` succeeds
and `to_string` of the result reconstructs the input exactly, even with
multiple separators or empty segments. -/
theorem C10_roundtrip :
    ∀ s : RStr, '_' ∈ s → ∃ t, Ticker.new s = some t ∧ Ticker.toString t = s := by
  intro s hs
  refine ⟨{ base := s.takeWhile (fun c => c ≠ '_'),
            quote := (s.dropWhile (fun c => c ≠ '_')).tail }, ?_, ?_⟩
  · unfold Ticker.new
    rw [if_pos hs]
  · exact split_reconstruct s hs

/-- Witness for C10 at `"A__B"` (multiple separators, split at the first). -/
theorem C10_roundtrip_witness :
    '_' ∈ ("A__B".toList : RStr) ∧
    (∃ t, Ticker.new "A__B".toList = some t ∧ Ticker.toString t = "A__B".toList) :=
  ⟨by decide, C10_roundtrip "A__B".toList (by decide)⟩

/-! ## `OrderBookCollector::worker` — polling, hour-bucket rotation, persistence

The worker's effects on the file system are recorded as an explicit log of
appended lines.  Each loop iteration is driven by one fetch outcome together
with the epoch-seconds capture timestamp `Utc::now().timestamp()` (always
nonnegative at run time, so embedded as `Nat`, on which `/` is floor
division, matching `timestamp / 3600i64 * 3600` for nonnegative values). -/

/-- Decimal digit characters of a natural number, most significant first:
the embedding of Rust's `{}` formatting of the bucket timestamp. -/
def natToDigits (n : Nat) : List Char :=
  if n < 10 then [Nat.digitChar n]
  else natToDigits (n / 10) ++ [Nat.digitChar (n % 10)]
decreasing_by exact Nat.div_lt_self (by omega) (by omega)

lemma natToDigits_ne_nil (n : Nat) : natToDigits n ≠ [] := by
  unfold natToDigits
  split <;> simp

lemma digitChar_inj_lt :
    ∀ a < 10, ∀ b < 10, Nat.digitChar a = Nat.digitChar b → a = b := by decide

lemma natToDigits_eq_small {n : Nat} (h : n < 10) : natToDigits n = [Nat.digitChar n] := by
  rw [natToDigits, if_pos h]

lemma natToDigits_eq_large {n : Nat} (h : ¬ n < 10) :
    natToDigits n = natToDigits (n / 10) ++ [Nat.digitChar (n % 10)] := by
  rw [natToDigits, if_neg h]

lemma natToDigits_inj (m : Nat) : ∀ n, natToDigits m = natToDigits n → m = n := by
  induction m using Nat.strong_induction_on with
  | _ m ih =>
    intro n h
    by_cases hm : m < 10 <;> by_cases hn : n < 10
    · rw [natToDigits_eq_small hm, natToDigits_eq_small hn] at h
      injection h with h1 _
      exact digitChar_inj_lt m hm n hn h1
    · rw [natToDigits_eq_small hm, natToDigits_eq_large hn] at h
      have hlen := congrArg List.length h
      have hpos : 0 < (natToDigits (n / 10)).length :=
        List.length_pos.mpr (natToDigits_ne_nil _)
      simp only [List.length_append, List.length_cons, List.length_nil] at hlen
      omega
    · rw [natToDigits_eq_large hm, natToDigits_eq_small hn] at h
      have hlen := congrArg List.length h
      have hpos : 0 < (natToDigits (m / 10)).length :=
        List.length_pos.mpr (natToDigits_ne_nil _)
      simp only [List.length_append, List.length_cons, List.length_nil] at hlen
      omega
    · rw [natToDigits_eq_large hm, natToDigits_eq_large hn] at h
      have h' := congrArg List.reverse h
      simp only [List.reverse_append, List.reverse_cons, List.reverse_nil,
        List.nil_append, List.singleton_append, List.cons.injEq] at h'
      obtain ⟨hdig, hrev⟩ := h'
      have hdiv : m / 10 = n / 10 :=
        ih (m / 10) (Nat.div_lt_self (by omega) (by omega)) (n / 10)
          (List.reverse_injective hrev)
      have hmod : m % 10 = n % 10 :=
        digitChar_inj_lt (m % 10) (Nat.mod_lt _ (by omega)) (n % 10)
          (Nat.mod_lt _ (by omega)) hdig
      omega

/-- The path of the bucket file: `format!("/{}.json", hour_timestamp)`
appended to the worker's directory. -/
def bucketPath (dir : RStr) (b : Nat) : RStr :=
  dir ++ '/' :: (natToDigits b ++ ['.', 'j', 's', 'o', 'n'])

lemma bucketPath_inj (dir : RStr) {b b' : Nat} (h : bucketPath dir b = bucketPath dir b') :
    b = b' := by
  unfold bucketPath at h
  have h1 := List.append_cancel_left h
  injection h1 with _ h2
  exact natToDigits_inj b _ (List.append_cancel_right h2)

lemma dir_ne_bucketPath (dir : RStr) (b : Nat) : dir ≠ bucketPath dir b := by
  intro h
  have h2 := congrArg List.length h
  simp [bucketPath, List.length_append] at h2

/-- Outcome of one `api.get_order_book` call, together with the
epoch-seconds timestamp captured on success. -/
inductive FetchEvent where
  | ok (t : Nat) (response : RStr)
  | err (msg : RStr)
  deriving DecidableEq

/-- The worker's rotation state and effect log: `file_path` and
`last_saved_hour_timestamp` from the source, plus the log of file appends
(path, capture timestamp, appended line) and of logged fetch errors. -/
structure WState where
  filePath : RStr
  lastBucket : Nat
  writes : List (RStr × Nat × RStr)
  errors : List RStr
  deriving DecidableEq

/-- `response_text.trim_end_matches('\n')`. -/
def trimEndNewlines (s : RStr) : RStr :=
  (s.reverse.dropWhile (fun c => c = '\n')).reverse

/-- The envelope line `format!(r#"{{"time": {}, "response": {}}}"#, ...)`. -/
def jsonLine (t : Nat) (response : RStr) : RStr :=
  "\x7b\"time\": ".toList ++ natToDigits t ++ ", \"response\": ".toList ++
    trimEndNewlines response ++ ['\x7d']

/-- `timestamp / 3600i64 * 3600` (floor to the hour for nonnegative input). -/
def hourBucket (t : Nat) : Nat := t / 3600 * 3600

/-- One iteration of the worker loop body (lines 133–159 of
`orderbook_collector.rs`): on a successful fetch, rotate when the hour
bucket advanced, then append the envelope to the current file; on a failed
fetch, only log the error. -/
def wstep (dir : RStr) (s : WState) : FetchEvent → WState
  | .ok t response =>
      let bucket := hourBucket t
      let s' :=
        if bucket > s.lastBucket then
          { s with filePath := bucketPath dir bucket, lastBucket := bucket }
        else s
      { s' with writes := s'.writes ++ [(s'.filePath, t, jsonLine t response)] }
  | .err msg => { s with errors := s.errors ++ [msg] }

/-- Worker state before the first iteration:
`file_path = dir.clone()`, `last_saved_hour_timestamp = 0`. -/
def initWorker (dir : RStr) : WState :=
  { filePath := dir, lastBucket := 0, writes := [], errors := [] }

/-- The worker loop over a finite schedule of fetch outcomes. -/
def runWorker (dir : RStr) (s : WState) (evs : List FetchEvent) : WState :=
  evs.foldl (wstep dir) s

/-- The capture timestamps of the successful fetches, in order. -/
def fetchTimes (evs : List FetchEvent) : List Nat :=
  evs.filterMap (fun e => match e with | .ok t _ => some t | .err _ => none)

/-- Rotation-state invariant: before the first rotation the current path is
still the bare directory, afterwards it is the bucket file of
`lastBucket`. -/
def RotationInv (dir : RStr) (s : WState) : Prop :=
  (s.lastBucket = 0 ∧ s.filePath = dir) ∨ s.filePath = bucketPath dir s.lastBucket

/-- Every logged append that went to a bucket-named file carries a
timestamp belonging to that bucket. -/
def WritesBucketed (dir : RStr) (s : WState) : Prop :=
  ∀ w ∈ s.writes, ∀ b : Nat, w.1 = bucketPath dir b → hourBucket w.2.1 = b

lemma hourBucket_mono {t t' : Nat} (h : t ≤ t') : hourBucket t ≤ hourBucket t' :=
  Nat.mul_le_mul_right 3600 (Nat.div_le_div_right h)

lemma wstep_ok_rotate (dir : RStr) (s : WState) (t : Nat) (response : RStr)
    (h : hourBucket t > s.lastBucket) :
    wstep dir s (.ok t response) =
      { filePath := bucketPath dir (hourBucket t), lastBucket := hourBucket t,
        writes := s.writes ++ [(bucketPath dir (hourBucket t), t, jsonLine t response)],
        errors := s.errors } := by
  simp [wstep, h]

lemma wstep_ok_same (dir : RStr) (s : WState) (t : Nat) (response : RStr)
    (h : ¬ hourBucket t > s.lastBucket) :
    wstep dir s (.ok t response) =
      { s with writes := s.writes ++ [(s.filePath, t, jsonLine t response)] } := by
  simp [wstep, h]

lemma runWorker_bucketed (dir : RStr) :
    ∀ (evs : List FetchEvent) (s : WState), RotationInv dir s → WritesBucketed dir s →
      (∀ t ∈ fetchTimes evs, s.lastBucket ≤ hourBucket t) →
      List.Sorted (· ≤ ·) (fetchTimes evs) →
      RotationInv dir (runWorker dir s evs) ∧ WritesBucketed dir (runWorker dir s evs) := by
  intro evs
  induction evs with
  | nil => exact fun s h1 h2 _ _ => ⟨h1, h2⟩
  | cons e evs ih =>
      intro s hrot hwr hbound hsorted
      cases e with
      | err msg =>
          have hstep : runWorker dir s (.err msg :: evs) =
              runWorker dir { s with errors := s.errors ++ [msg] } evs := by
            simp [runWorker, wstep]
          rw [hstep]
          refine ih _ ?_ ?_ ?_ ?_
          · exact hrot
          · exact hwr
          · simpa [fetchTimes] using hbound
          · simpa [fetchTimes] using hsorted
      | ok t response =>
          have htmem : t ∈ fetchTimes (.ok t response :: evs) := by
            simp [fetchTimes]
          have hle : s.lastBucket ≤ hourBucket t := hbound t htmem
          have htimes : fetchTimes (.ok t response :: evs) = t :: fetchTimes evs := by
            simp [fetchTimes]
          rw [htimes] at hsorted
          have hsorted' := (List.sorted_cons.mp hsorted).2
          have hhead := (List.sorted_cons.mp hsorted).1
          have hstep : runWorker dir s (.ok t response :: evs) =
              runWorker dir (wstep dir s (.ok t response)) evs := by
            simp [runWorker]
          rw [hstep]
          by_cases hgt : hourBucket t > s.lastBucket
          · rw [wstep_ok_rotate dir s t response hgt]
            refine ih _ ?_ ?_ ?_ hsorted'
            · exact Or.inr rfl
            · intro w hw b hb
              rcases List.mem_append.mp hw with hw1 | hw1
              · exact hwr w hw1 b hb
              · rcases List.mem_singleton.mp hw1 with rfl
                exact bucketPath_inj dir hb
            · intro t' ht'
              exact hourBucket_mono (hhead t' ht')
          · rw [wstep_ok_same dir s t response hgt]
            have heq : hourBucket t = s.lastBucket := Nat.le_antisymm (by omega) hle
            refine ih _ ?_ ?_ ?_ hsorted'
            · exact hrot
            · intro w hw b hb
              rcases List.mem_append.mp hw with hw1 | hw1
              · exact hwr w hw1 b hb
              · rcases List.mem_singleton.mp hw1 with rfl
                rcases hrot with ⟨_, hfp⟩ | hfp
                · exact absurd (hfp ▸ hb) (dir_ne_bucketPath dir b)
                · have : bucketPath dir s.lastBucket = bucketPath dir b := hfp ▸ hb
                  have hb' : s.lastBucket = b := bucketPath_inj dir this
                  simpa [heq] using hb'
            · intro t' ht'
              exact le_trans hle (hourBucket_mono (hhead t' ht'))

/-- C6: in each successful iteration the bucket is `t / 3600 * 3600`; exactly
when it exceeds `lastBucket` the worker switches the current file path to
`directory ++ "/" ++ bucket ++ ".json"` and records the bucket, and it always
appends one envelope line to the current file; consequently, for
non-decreasing fetch timestamps, every output file named by a bucket holds
only envelopes whose timestamp lies in that hour bucket. -/
theorem C6_rotation (dir : RStr) (evs : List FetchEvent)
    (hsorted : List.Sorted (· ≤ ·) (fetchTimes evs)) :
    (∀ (s : WState) (t : Nat) (response : RStr),
        (t / 3600 * 3600 > s.lastBucket →
          (wstep dir s (.ok t response)).filePath = bucketPath dir (t / 3600 * 3600) ∧
          (wstep dir s (.ok t response)).lastBucket = t / 3600 * 3600) ∧
        (¬ t / 3600 * 3600 > s.lastBucket →
          (wstep dir s (.ok t response)).filePath = s.filePath ∧
          (wstep dir s (.ok t response)).lastBucket = s.lastBucket) ∧
        (wstep dir s (.ok t response)).writes = s.writes ++
          [((wstep dir s (.ok t response)).filePath, t, jsonLine t response)]) ∧
    (∀ w ∈ (runWorker dir (initWorker dir) evs).writes, ∀ b : Nat,
        w.1 = bucketPath dir b → w.2.1 / 3600 * 3600 = b) := by
  constructor
  · intro s t response
    refine ⟨?_, ?_, ?_⟩
    · intro hgt
      rw [wstep_ok_rotate dir s t response hgt]
      exact ⟨rfl, rfl⟩
    · intro hgt
      rw [wstep_ok_same dir s t response hgt]
      exact ⟨rfl, rfl⟩
    · by_cases hgt : hourBucket t > s.lastBucket
      · rw [wstep_ok_rotate dir s t response hgt]
      · rw [wstep_ok_same dir s t response hgt]
  · have h := runWorker_bucketed dir evs (initWorker dir)
      (Or.inl ⟨rfl, rfl⟩) (by intro w hw; simp [initWorker] at hw)
      (by intro t _; exact Nat.zero_le _) hsorted
    exact h.2

/-- Witness for C6: a schedule of fetches crossing two hour boundaries
(buckets 3600 and 10800), with one failed fetch interleaved. -/
theorem C6_rotation_witness :
    List.Sorted (· ≤ ·)
      (fetchTimes [.ok 7000 "r1".toList, .ok 7210 "r2".toList,
        .err "boom".toList, .ok 10900 "r3".toList]) ∧
    (∀ w ∈ (runWorker "d".toList (initWorker "d".toList)
        [.ok 7000 "r1".toList, .ok 7210 "r2".toList,
          .err "boom".toList, .ok 10900 "r3".toList]).writes, ∀ b : Nat,
        w.1 = bucketPath "d".toList b → w.2.1 / 3600 * 3600 = b) :=
  ⟨by decide,
   (C6_rotation "d".toList
      [.ok 7000 "r1".toList, .ok 7210 "r2".toList,
        .err "boom".toList, .ok 10900 "r3".toList] (by decide)).2⟩

/-- C9: a worker iteration whose fetch fails only logs the error: it performs
no file write, leaves the rotation state (current file path and
`last_saved_hour_timestamp`) unchanged, and the loop keeps running with no
retry limit: any number of consecutive failures later behaves exactly like
the same worker continuing from the same rotation state. -/
theorem C9_error_iteration :
    ∀ (dir : RStr) (s : WState) (msg : RStr),
      (wstep dir s (.err msg)).writes = s.writes ∧
      (wstep dir s (.err msg)).filePath = s.filePath ∧
      (wstep dir s (.err msg)).lastBucket = s.lastBucket ∧
      (wstep dir s (.err msg)).errors = s.errors ++ [msg] ∧
      (∀ (n : Nat) (evs : List FetchEvent),
        runWorker dir s (List.replicate n (.err msg) ++ evs) =
          runWorker dir { s with errors := s.errors ++ List.replicate n msg } evs) := by
  intro dir s msg
  refine ⟨rfl, rfl, rfl, rfl, ?_⟩
  intro n
  induction n generalizing s with
  | zero => intro evs; simp [runWorker]
  | succ n ih =>
      intro evs
      have h1 : runWorker dir s (List.replicate (n + 1) (.err msg) ++ evs) =
          runWorker dir { s with errors := s.errors ++ [msg] }
            (List.replicate n (.err msg) ++ evs) := by
        simp [List.replicate_succ, runWorker, wstep]
      rw [h1, ih]
      simp [List.replicate_succ, List.append_assoc]

/-! ## `OrderBookCollector` registry (`start` / `stop` / `start_multiple`)

The two `HashMap`s of the struct become association lists with map
semantics.  Thread handles (`JoinHandle`) and shared cancellation flags
(`Arc<AtomicBool>`) are identified by freshly allocated numbers drawn from
a counter, so that task identity and flag identity are observable; a flag
is a pair (identity, current boolean value).  Visible actions of the
control path are logged as events: spawning a worker task, joining one,
and `start_multiple`'s calls into `stop` and `start`. -/

/-- Lookup in an association list keyed by symbol strings. -/
def lookupKey {α : Type} (k : String) : List (String × α) → Option α
  | [] => none
  | (k', v) :: rest => if k' = k then some v else lookupKey k rest

/-- `HashMap::remove`: drop the binding of `k`. -/
def eraseKey {α : Type} (k : String) (l : List (String × α)) : List (String × α) :=
  l.filter (fun p => p.1 ≠ k)

/-- `HashMap::insert`: bind `k` to `v`, replacing any previous binding. -/
def upsert {α : Type} (k : String) (v : α) (l : List (String × α)) : List (String × α) :=
  (k, v) :: eraseKey k l

lemma lookupKey_eraseKey {α : Type} (k k' : String) (l : List (String × α)) :
    lookupKey k (eraseKey k' l) = if k' = k then none else lookupKey k l := by
  induction l with
  | nil => simp [eraseKey, lookupKey]
  | cons p rest ih =>
      obtain ⟨a, v⟩ := p
      by_cases hak : a = k' <;> by_cases hak2 : a = k <;>
        simp_all [eraseKey, lookupKey, List.filter_cons]
      exact fun h => hak h.symm

lemma lookupKey_upsert {α : Type} (k k' : String) (v : α) (l : List (String × α)) :
    lookupKey k (upsert k' v l) = if k' = k then some v else lookupKey k l := by
  unfold upsert
  by_cases h : k' = k <;> simp [lookupKey, h, lookupKey_eraseKey]

lemma eraseKey_of_lookup_none {α : Type} (k : String) (l : List (String × α))
    (h : lookupKey k l = none) : eraseKey k l = l := by
  induction l with
  | nil => rfl
  | cons p rest ih =>
      obtain ⟨a, v⟩ := p
      by_cases hak : a = k
      · rw [lookupKey, if_pos hak] at h
        cases h
      · rw [lookupKey, if_neg hak] at h
        have ih' := ih h
        unfold eraseKey at ih' ⊢
        rw [List.filter_cons, if_pos (by simp [hak]), ih']

lemma lookupKey_isSome_iff_mem {α : Type} (k : String) (l : List (String × α)) :
    (lookupKey k l).isSome ↔ k ∈ l.map Prod.fst := by
  induction l with
  | nil => simp [lookupKey]
  | cons p rest ih =>
      obtain ⟨a, v⟩ := p
      by_cases hak : a = k <;> simp [lookupKey, hak, ih]
      exact fun h => absurd h.symm hak

/-- Visible actions of the registry control path. -/
inductive REvent where
  | spawnT (symbol : String) (tid : Nat)
  | joinT (tid : Nat)
  | stopCall (symbol : String)
  | startCall (symbol : String)
  | invalidSym (symbol : String)
  deriving DecidableEq

/-- `OrderBookCollector { handles, alive }` plus a fresh-identity counter
for spawned tasks and newly created flags. -/
structure RegState where
  handles : List (String × Nat)
  alive : List (String × (Nat × Bool))
  nextId : Nat
  deriving DecidableEq

/-- `OrderBookCollector::start`: parse the symbol; on failure log and do
nothing.  Otherwise get-or-create the symbol's alive flag
(`entry(..).or_insert_with(..)`), store `true` into it, spawn a worker
task and record its handle under the symbol (replacing any previous
handle). -/
def OrderBookCollector.start (s : RegState) (symbol : String) : RegState × List REvent :=
  match Ticker.new symbol.toList with
  | some _ =>
      match lookupKey symbol s.alive with
      | some (fid, _) =>
          ({ handles := upsert symbol s.nextId s.handles,
             alive := upsert symbol (fid, true) s.alive,
             nextId := s.nextId + 1 },
           [REvent.spawnT symbol s.nextId])
      | none =>
          ({ handles := upsert symbol (s.nextId + 1) s.handles,
             alive := upsert symbol (s.nextId, true) s.alive,
             nextId := s.nextId + 2 },
           [REvent.spawnT symbol (s.nextId + 1)])
  | none => (s, [REvent.invalidSym symbol])

/-- `OrderBookCollector::stop`: if the symbol has no alive-flag entry, do
nothing.  Otherwise store `false` into the flag (the entry itself stays in
the `alive` map) and, if a handle is recorded, remove it and join the
thread. -/
def OrderBookCollector.stop (s : RegState) (symbol : String) : RegState × List REvent :=
  match lookupKey symbol s.alive with
  | none => (s, [])
  | some (fid, _) =>
      match lookupKey symbol s.handles with
      | some tid =>
          ({ handles := eraseKey symbol s.handles,
             alive := upsert symbol (fid, false) s.alive,
             nextId := s.nextId },
           [REvent.joinT tid])
      | none =>
          ({ s with alive := upsert symbol (fid, false) s.alive }, [])

/-- First loop of `start_multiple`: over a snapshot of the running symbols,
stop those missing from the desired set. -/
def OrderBookCollector.runStops (desired : List String) :
    List String → RegState → RegState × List REvent
  | [], s => (s, [])
  | k :: ks, s =>
      if k ∈ desired then OrderBookCollector.runStops desired ks s
      else
        let p1 := OrderBookCollector.stop s k
        let p2 := OrderBookCollector.runStops desired ks p1.1
        (p2.1, REvent.stopCall k :: p1.2 ++ p2.2)

/-- Second loop of `start_multiple`: start each desired symbol that has no
recorded handle. -/
def OrderBookCollector.runStarts :
    List String → RegState → RegState × List REvent
  | [], s => (s, [])
  | sym :: ss, s =>
      if (lookupKey sym s.handles).isSome then OrderBookCollector.runStarts ss s
      else
        let p1 := OrderBookCollector.start s sym
        let p2 := OrderBookCollector.runStarts ss p1.1
        (p2.1, REvent.startCall sym :: p1.2 ++ p2.2)

/-- `OrderBookCollector::start_multiple`. -/
def OrderBookCollector.start_multiple (s : RegState) (symbols : List String) :
    RegState × List REvent :=
  let p1 := OrderBookCollector.runStops symbols (s.handles.map Prod.fst) s
  let p2 := OrderBookCollector.runStarts symbols p1.1
  (p2.1, p1.2 ++ p2.2)

lemma stop_of_alive_none (s : RegState) (k : String) (h : lookupKey k s.alive = none) :
    OrderBookCollector.stop s k = (s, []) := by
  unfold OrderBookCollector.stop
  rw [h]

lemma stop_state_of_alive_some (s : RegState) (k : String) (fid : Nat) (b : Bool)
    (h : lookupKey k s.alive = some (fid, b)) :
    (OrderBookCollector.stop s k).1 =
      { handles := eraseKey k s.handles,
        alive := upsert k (fid, false) s.alive,
        nextId := s.nextId } := by
  unfold OrderBookCollector.stop
  rw [h]
  cases hh : lookupKey k s.handles with
  | some tid => rfl
  | none =>
      rw [eraseKey_of_lookup_none k s.handles hh]

lemma stop_events_join (s : RegState) (k : String) (fid : Nat) (b : Bool) (tid : Nat)
    (ha : lookupKey k s.alive = some (fid, b)) (hh : lookupKey k s.handles = some tid) :
    (OrderBookCollector.stop s k).2 = [REvent.joinT tid] := by
  unfold OrderBookCollector.stop
  rw [ha, hh]

lemma stop_events_nohandle (s : RegState) (k : String) (fid : Nat) (b : Bool)
    (ha : lookupKey k s.alive = some (fid, b)) (hh : lookupKey k s.handles = none) :
    (OrderBookCollector.stop s k).2 = [] := by
  unfold OrderBookCollector.stop
  rw [ha, hh]

lemma stop_events_only (s : RegState) (k : String) :
    ∀ e ∈ (OrderBookCollector.stop s k).2, ∃ tid, e = REvent.joinT tid := by
  intro e he
  unfold OrderBookCollector.stop at he
  cases ha : lookupKey k s.alive with
  | none => rw [ha] at he; cases he
  | some p =>
      obtain ⟨fid, b⟩ := p
      rw [ha] at he
      cases hh : lookupKey k s.handles with
      | none => rw [hh] at he; cases he
      | some tid =>
          rw [hh] at he
          rcases List.mem_singleton.mp he with rfl
          exact ⟨tid, rfl⟩

lemma stop_lookup_other (s : RegState) (k k' : String) (hne : k' ≠ k) :
    lookupKey k (OrderBookCollector.stop s k').1.handles = lookupKey k s.handles ∧
    lookupKey k (OrderBookCollector.stop s k').1.alive = lookupKey k s.alive := by
  cases ha : lookupKey k' s.alive with
  | none => rw [stop_of_alive_none s k' ha]; exact ⟨rfl, rfl⟩
  | some p =>
      obtain ⟨fid, b⟩ := p
      rw [stop_state_of_alive_some s k' fid b ha]
      exact ⟨by simp [lookupKey_eraseKey, hne], by simp [lookupKey_upsert, hne]⟩

lemma stop_handles_none_preserved (s : RegState) (k k' : String)
    (h : lookupKey k s.handles = none) :
    lookupKey k (OrderBookCollector.stop s k').1.handles = none := by
  cases ha : lookupKey k' s.alive with
  | none => rw [stop_of_alive_none s k' ha]; exact h
  | some p =>
      obtain ⟨fid, b⟩ := p
      rw [stop_state_of_alive_some s k' fid b ha, lookupKey_eraseKey]
      by_cases hk : k' = k
      · rw [if_pos hk]
      · rw [if_neg hk]; exact h

lemma stop_alive_isSome_preserved (s : RegState) (k k' : String)
    (h : (lookupKey k s.alive).isSome) :
    (lookupKey k (OrderBookCollector.stop s k').1.alive).isSome := by
  cases ha : lookupKey k' s.alive with
  | none => rw [stop_of_alive_none s k' ha]; exact h
  | some p =>
      obtain ⟨fid, b⟩ := p
      rw [stop_state_of_alive_some s k' fid b ha, lookupKey_upsert]
      by_cases hk : k' = k
      · rw [if_pos hk]; rfl
      · rw [if_neg hk]; exact h

lemma start_of_invalid (s : RegState) (k : String) (h : Ticker.new k.toList = none) :
    OrderBookCollector.start s k = (s, [REvent.invalidSym k]) := by
  unfold OrderBookCollector.start
  rw [h]

lemma start_of_valid_reuse (s : RegState) (k : String) (t : Ticker) (fid : Nat) (b : Bool)
    (hv : Ticker.new k.toList = some t) (ha : lookupKey k s.alive = some (fid, b)) :
    OrderBookCollector.start s k =
      ({ handles := upsert k s.nextId s.handles,
         alive := upsert k (fid, true) s.alive,
         nextId := s.nextId + 1 },
       [REvent.spawnT k s.nextId]) := by
  unfold OrderBookCollector.start
  rw [hv, ha]

lemma start_of_valid_fresh (s : RegState) (k : String) (t : Ticker)
    (hv : Ticker.new k.toList = some t) (ha : lookupKey k s.alive = none) :
    OrderBookCollector.start s k =
      ({ handles := upsert k (s.nextId + 1) s.handles,
         alive := upsert k (s.nextId, true) s.alive,
         nextId := s.nextId + 2 },
       [REvent.spawnT k (s.nextId + 1)]) := by
  unfold OrderBookCollector.start
  rw [hv, ha]

lemma start_lookup_other (s : RegState) (k k' : String) (hne : k' ≠ k) :
    lookupKey k (OrderBookCollector.start s k').1.handles = lookupKey k s.handles ∧
    lookupKey k (OrderBookCollector.start s k').1.alive = lookupKey k s.alive := by
  cases hv : Ticker.new k'.toList with
  | none => rw [start_of_invalid s k' hv]; exact ⟨rfl, rfl⟩
  | some t =>
      cases ha : lookupKey k' s.alive with
      | some p =>
          obtain ⟨fid, b⟩ := p
          rw [start_of_valid_reuse s k' t fid b hv ha]
          exact ⟨by simp [lookupKey_upsert, hne], by simp [lookupKey_upsert, hne]⟩
      | none =>
          rw [start_of_valid_fresh s k' t hv ha]
          exact ⟨by simp [lookupKey_upsert, hne], by simp [lookupKey_upsert, hne]⟩

lemma start_handles_backward (s : RegState) (k k' : String)
    (h : lookupKey k (OrderBookCollector.start s k').1.handles = none) :
    lookupKey k s.handles = none := by
  by_cases hne : k' = k
  · subst hne
    cases hv : Ticker.new k'.toList with
    | none => rw [start_of_invalid s k' hv] at h; exact h
    | some t =>
        cases ha : lookupKey k' s.alive with
        | some p =>
            obtain ⟨fid, b⟩ := p
            rw [start_of_valid_reuse s k' t fid b hv ha, lookupKey_upsert, if_pos rfl] at h
            cases h
        | none =>
            rw [start_of_valid_fresh s k' t hv ha, lookupKey_upsert, if_pos rfl] at h
            cases h
  · rw [(start_lookup_other s k k' hne).1] at h
    exact h

lemma start_valid_handles_self (s : RegState) (k : String) (t : Ticker)
    (hv : Ticker.new k.toList = some t) :
    (lookupKey k (OrderBookCollector.start s k).1.handles).isSome := by
  cases ha : lookupKey k s.alive with
  | some p =>
      obtain ⟨fid, b⟩ := p
      rw [start_of_valid_reuse s k t fid b hv ha, lookupKey_upsert, if_pos rfl]
      rfl
  | none =>
      rw [start_of_valid_fresh s k t hv ha, lookupKey_upsert, if_pos rfl]
      rfl

lemma start_events_only (s : RegState) (k : String) :
    ∀ e ∈ (OrderBookCollector.start s k).2,
      (∃ sym tid, e = REvent.spawnT sym tid) ∨ (∃ sym, e = REvent.invalidSym sym) := by
  intro e he
  cases hv : Ticker.new k.toList with
  | none =>
      rw [start_of_invalid s k hv] at he
      rcases List.mem_singleton.mp he with rfl
      exact Or.inr ⟨k, rfl⟩
  | some t =>
      cases ha : lookupKey k s.alive with
      | some p =>
          obtain ⟨fid, b⟩ := p
          rw [start_of_valid_reuse s k t fid b hv ha] at he
          rcases List.mem_singleton.mp he with rfl
          exact Or.inl ⟨k, s.nextId, rfl⟩
      | none =>
          rw [start_of_valid_fresh s k t hv ha] at he
          rcases List.mem_singleton.mp he with rfl
          exact Or.inl ⟨k, s.nextId + 1, rfl⟩

lemma runStops_nil (d : List String) (s : RegState) :
    OrderBookCollector.runStops d [] s = (s, []) := rfl

lemma runStops_cons_mem (d : List String) (k : String) (ks : List String) (s : RegState)
    (h : k ∈ d) :
    OrderBookCollector.runStops d (k :: ks) s = OrderBookCollector.runStops d ks s := by
  simp [OrderBookCollector.runStops, h]

lemma runStops_cons_not_mem (d : List String) (k : String) (ks : List String) (s : RegState)
    (h : k ∉ d) :
    OrderBookCollector.runStops d (k :: ks) s =
      ((OrderBookCollector.runStops d ks (OrderBookCollector.stop s k).1).1,
        REvent.stopCall k :: (OrderBookCollector.stop s k).2 ++
          (OrderBookCollector.runStops d ks (OrderBookCollector.stop s k).1).2) := by
  simp [OrderBookCollector.runStops, h]

lemma runStops_preserves_desired (d : List String) (k : String) (hk : k ∈ d) :
    ∀ (ks : List String) (s : RegState),
      lookupKey k (OrderBookCollector.runStops d ks s).1.handles = lookupKey k s.handles ∧
      lookupKey k (OrderBookCollector.runStops d ks s).1.alive = lookupKey k s.alive := by
  intro ks
  induction ks with
  | nil => intro s; exact ⟨rfl, rfl⟩
  | cons k' ks ih =>
      intro s
      by_cases hmem : k' ∈ d
      · rw [runStops_cons_mem d k' ks s hmem]
        exact ih s
      · have hne : k' ≠ k := fun h => hmem (h ▸ hk)
        rw [runStops_cons_not_mem d k' ks s hmem]
        refine ⟨?_, ?_⟩
        · rw [(ih _).1, (stop_lookup_other s k k' hne).1]
        · rw [(ih _).2, (stop_lookup_other s k k' hne).2]

lemma runStops_handles_none (d : List String) (k : String) :
    ∀ (ks : List String) (s : RegState), lookupKey k s.handles = none →
      lookupKey k (OrderBookCollector.runStops d ks s).1.handles = none := by
  intro ks
  induction ks with
  | nil => intro s h; exact h
  | cons k' ks ih =>
      intro s h
      by_cases hmem : k' ∈ d
      · rw [runStops_cons_mem d k' ks s hmem]; exact ih s h
      · rw [runStops_cons_not_mem d k' ks s hmem]
        exact ih _ (stop_handles_none_preserved s k k' h)

lemma runStops_alive_isSome (d : List String) (k : String) :
    ∀ (ks : List String) (s : RegState), (lookupKey k s.alive).isSome →
      (lookupKey k (OrderBookCollector.runStops d ks s).1.alive).isSome := by
  intro ks
  induction ks with
  | nil => intro s h; exact h
  | cons k' ks ih =>
      intro s h
      by_cases hmem : k' ∈ d
      · rw [runStops_cons_mem d k' ks s hmem]; exact ih s h
      · rw [runStops_cons_not_mem d k' ks s hmem]
        exact ih _ (stop_alive_isSome_preserved s k k' h)

lemma runStops_removes (d : List String) (k : String) (hkd : k ∉ d) :
    ∀ (ks : List String) (s : RegState), k ∈ ks → (lookupKey k s.alive).isSome →
      lookupKey k (OrderBookCollector.runStops d ks s).1.handles = none := by
  intro ks
  induction ks with
  | nil => intro s h _; cases h
  | cons k' ks ih =>
      intro s hmem halive
      by_cases hd : k' ∈ d
      · have hne : k ≠ k' := fun h => hkd (h ▸ hd)
        have hks : k ∈ ks := by
          rcases List.mem_cons.mp hmem with h1 | h1
          · exact absurd h1 hne
          · exact h1
        rw [runStops_cons_mem d k' ks s hd]
        exact ih s hks halive
      · rw [runStops_cons_not_mem d k' ks s hd]
        by_cases hkk : k' = k
        · subst hkk
          rcases Option.isSome_iff_exists.mp halive with ⟨p, hp⟩
          obtain ⟨fid, b⟩ := p
          have hself : lookupKey k' (OrderBookCollector.stop s k').1.handles = none := by
            rw [stop_state_of_alive_some s k' fid b hp, lookupKey_eraseKey, if_pos rfl]
          exact runStops_handles_none d k' ks _ hself
        · have hks : k ∈ ks := by
            rcases List.mem_cons.mp hmem with h1 | h1
            · exact absurd h1.symm hkk
            · exact h1
          exact ih _ hks (stop_alive_isSome_preserved s k k' halive)

lemma runStops_noop (d : List String) :
    ∀ (ks : List String) (s : RegState), (∀ k ∈ ks, k ∈ d) →
      OrderBookCollector.runStops d ks s = (s, []) := by
  intro ks
  induction ks with
  | nil => intro s _; rfl
  | cons k' ks ih =>
      intro s hall
      rw [runStops_cons_mem d k' ks s (hall k' (List.mem_cons_self _ _))]
      exact ih s fun k hk => hall k (List.mem_cons_of_mem _ hk)

lemma runStops_stopCall_iff (d : List String) (k : String) :
    ∀ (ks : List String) (s : RegState),
      REvent.stopCall k ∈ (OrderBookCollector.runStops d ks s).2 ↔ k ∈ ks ∧ k ∉ d := by
  intro ks
  induction ks with
  | nil =>
      intro s
      simp [runStops_nil]
  | cons k' ks ih =>
      intro s
      by_cases hmem : k' ∈ d
      · rw [runStops_cons_mem d k' ks s hmem, ih s]
        constructor
        · rintro ⟨h1, h2⟩
          exact ⟨List.mem_cons_of_mem _ h1, h2⟩
        · rintro ⟨h1, h2⟩
          rcases List.mem_cons.mp h1 with h3 | h3
          · exact absurd (h3 ▸ hmem) h2
          · exact ⟨h3, h2⟩
      · rw [runStops_cons_not_mem d k' ks s hmem]
        constructor
        · intro h1
          rcases List.mem_cons.mp h1 with h2 | h2
          · injection h2 with h2
            subst h2
            exact ⟨List.mem_cons_self _ _, hmem⟩
          · rcases List.mem_append.mp h2 with h3 | h3
            · rcases stop_events_only s k' _ h3 with ⟨tid, htid⟩
              cases htid
            · rcases (ih _).mp h3 with ⟨h4, h5⟩
              exact ⟨List.mem_cons_of_mem _ h4, h5⟩
        · rintro ⟨h1, h2⟩
          rcases List.mem_cons.mp h1 with h3 | h3
          · subst h3
            exact List.mem_cons_self _ _
          · exact List.mem_cons_of_mem _ (List.mem_append_right _ ((ih _).mpr ⟨h3, h2⟩))

lemma runStops_events_other (d : List String) :
    ∀ (ks : List String) (s : RegState) (e : REvent), e ∈ (OrderBookCollector.runStops d ks s).2 →
      (∃ k, e = REvent.stopCall k) ∨ (∃ tid, e = REvent.joinT tid) := by
  intro ks
  induction ks with
  | nil => intro s e he; cases he
  | cons k' ks ih =>
      intro s e he
      by_cases hmem : k' ∈ d
      · rw [runStops_cons_mem d k' ks s hmem] at he
        exact ih s e he
      · rw [runStops_cons_not_mem d k' ks s hmem] at he
        rcases List.mem_cons.mp he with h1 | h1
        · exact Or.inl ⟨k', h1⟩
        · rcases List.mem_append.mp h1 with h2 | h2
          · rcases stop_events_only s k' e h2 with ⟨tid, htid⟩
            exact Or.inr ⟨tid, htid⟩
          · exact ih _ e h2

lemma runStarts_nil (s : RegState) : OrderBookCollector.runStarts [] s = (s, []) := rfl

lemma runStarts_cons_some (sym : String) (ss : List String) (s : RegState)
    (h : (lookupKey sym s.handles).isSome) :
    OrderBookCollector.runStarts (sym :: ss) s = OrderBookCollector.runStarts ss s := by
  simp [OrderBookCollector.runStarts, h]

lemma runStarts_cons_none (sym : String) (ss : List String) (s : RegState)
    (h : lookupKey sym s.handles = none) :
    OrderBookCollector.runStarts (sym :: ss) s =
      ((OrderBookCollector.runStarts ss (OrderBookCollector.start s sym).1).1,
        REvent.startCall sym :: (OrderBookCollector.start s sym).2 ++
          (OrderBookCollector.runStarts ss (OrderBookCollector.start s sym).1).2) := by
  simp [OrderBookCollector.runStarts, h]

lemma runStarts_preserves_handle (k : String) (v : Nat) :
    ∀ (ss : List String) (s : RegState), lookupKey k s.handles = some v →
      lookupKey k (OrderBookCollector.runStarts ss s).1.handles = some v ∧
      lookupKey k (OrderBookCollector.runStarts ss s).1.alive = lookupKey k s.alive := by
  intro ss
  induction ss with
  | nil => intro s h; exact ⟨h, rfl⟩
  | cons sym ss ih =>
      intro s h
      by_cases hs : (lookupKey sym s.handles).isSome
      · rw [runStarts_cons_some sym ss s hs]
        exact ih s h
      · have hnone : lookupKey sym s.handles = none := Option.not_isSome_iff_eq_none.mp hs
        have hne : sym ≠ k := fun he => by rw [he, h] at hnone; cases hnone
        rw [runStarts_cons_none sym ss s hnone]
        have hoth := start_lookup_other s k sym hne
        refine ⟨(ih _ (hoth.1.trans h)).1, ?_⟩
        rw [(ih _ (hoth.1.trans h)).2, hoth.2]

lemma runStarts_not_mem (k : String) :
    ∀ (ss : List String) (s : RegState), k ∉ ss →
      lookupKey k (OrderBookCollector.runStarts ss s).1.handles = lookupKey k s.handles ∧
      lookupKey k (OrderBookCollector.runStarts ss s).1.alive = lookupKey k s.alive := by
  intro ss
  induction ss with
  | nil => intro s _; exact ⟨rfl, rfl⟩
  | cons sym ss ih =>
      intro s hk
      have hne : sym ≠ k := fun he => hk (he ▸ List.mem_cons_self _ _)
      have hk' : k ∉ ss := fun he => hk (List.mem_cons_of_mem _ he)
      by_cases hs : (lookupKey sym s.handles).isSome
      · rw [runStarts_cons_some sym ss s hs]
        exact ih s hk'
      · have hnone : lookupKey sym s.handles = none := Option.not_isSome_iff_eq_none.mp hs
        rw [runStarts_cons_none sym ss s hnone]
        have hoth := start_lookup_other s k sym hne
        exact ⟨(ih _ hk').1.trans hoth.1, (ih _ hk').2.trans hoth.2⟩

lemma runStarts_preserves_isSome (k : String) :
    ∀ (ss : List String) (s : RegState), (lookupKey k s.handles).isSome →
      (lookupKey k (OrderBookCollector.runStarts ss s).1.handles).isSome := by
  intro ss s h
  rcases Option.isSome_iff_exists.mp h with ⟨v, hv⟩
  rw [(runStarts_preserves_handle k v ss s hv).1]
  rfl

lemma runStarts_started (sym : String) (t : Ticker) (hv : Ticker.new sym.toList = some t) :
    ∀ (ss : List String) (s : RegState), sym ∈ ss →
      (lookupKey sym (OrderBookCollector.runStarts ss s).1.handles).isSome := by
  intro ss
  induction ss with
  | nil => intro s h; cases h
  | cons sym' ss ih =>
      intro s hmem
      rcases List.mem_cons.mp hmem with h1 | h1
      · subst h1
        by_cases hs : (lookupKey sym s.handles).isSome
        · rw [runStarts_cons_some sym ss s hs]
          exact runStarts_preserves_isSome sym ss s hs
        · have hnone : lookupKey sym s.handles = none := Option.not_isSome_iff_eq_none.mp hs
          rw [runStarts_cons_none sym ss s hnone]
          exact runStarts_preserves_isSome sym ss _ (start_valid_handles_self s sym t hv)
      · by_cases hs : (lookupKey sym' s.handles).isSome
        · rw [runStarts_cons_some sym' ss s hs]
          exact ih s h1
        · have hnone : lookupKey sym' s.handles = none := Option.not_isSome_iff_eq_none.mp hs
          rw [runStarts_cons_none sym' ss s hnone]
          exact ih _ h1

lemma runStarts_noop :
    ∀ (ss : List String) (s : RegState),
      (∀ sym ∈ ss, lookupKey sym s.handles = none → Ticker.new sym.toList = none) →
      (OrderBookCollector.runStarts ss s).1 = s ∧
      (∀ sym tid, REvent.spawnT sym tid ∉ (OrderBookCollector.runStarts ss s).2) := by
  intro ss
  induction ss with
  | nil => intro s _; exact ⟨rfl, fun sym tid h => by cases h⟩
  | cons sym' ss ih =>
      intro s hall
      by_cases hs : (lookupKey sym' s.handles).isSome
      · rw [runStarts_cons_some sym' ss s hs]
        exact ih s fun sym h1 h2 => hall sym (List.mem_cons_of_mem _ h1) h2
      · have hnone : lookupKey sym' s.handles = none := Option.not_isSome_iff_eq_none.mp hs
        have hinv : Ticker.new sym'.toList = none :=
          hall sym' (List.mem_cons_self _ _) hnone
        rw [runStarts_cons_none sym' ss s hnone, start_of_invalid s sym' hinv]
        have ihr := ih s fun sym h1 h2 => hall sym (List.mem_cons_of_mem _ h1) h2
        refine ⟨ihr.1, ?_⟩
        intro sym tid hmem
        rcases List.mem_cons.mp hmem with h1 | h1
        · cases h1
        · rcases List.mem_append.mp h1 with h2 | h2
          · cases List.mem_singleton.mp h2
          · exact ihr.2 sym tid h2

lemma runStarts_startCall_iff (k : String) :
    ∀ (ss : List String) (s : RegState),
      REvent.startCall k ∈ (OrderBookCollector.runStarts ss s).2 ↔
        k ∈ ss ∧ lookupKey k s.handles = none := by
  intro ss
  induction ss with
  | nil =>
      intro s
      constructor
      · intro h; cases h
      · rintro ⟨h, _⟩; cases h
  | cons sym ss ih =>
      intro s
      by_cases hs : (lookupKey sym s.handles).isSome
      · rw [runStarts_cons_some sym ss s hs]
        constructor
        · intro h
          rcases (ih s).mp h with ⟨h1, h2⟩
          exact ⟨List.mem_cons_of_mem _ h1, h2⟩
        · rintro ⟨h1, h2⟩
          rcases List.mem_cons.mp h1 with h3 | h3
          · subst h3
            rw [h2] at hs
            cases hs
          · exact (ih s).mpr ⟨h3, h2⟩
      · have hnone : lookupKey sym s.handles = none := Option.not_isSome_iff_eq_none.mp hs
        rw [runStarts_cons_none sym ss s hnone]
        constructor
        · intro h1
          rcases List.mem_cons.mp h1 with h2 | h2
          · injection h2 with h2
            subst h2
            exact ⟨List.mem_cons_self _ _, hnone⟩
          · rcases List.mem_append.mp h2 with h3 | h3
            · rcases start_events_only s sym _ h3 with ⟨sym', tid, hsp⟩ | ⟨sym', hsp⟩
              · cases hsp
              · cases hsp
            · rcases (ih _).mp h3 with ⟨h4, h5⟩
              exact ⟨List.mem_cons_of_mem _ h4, start_handles_backward s k sym h5⟩
        · rintro ⟨h1, h2⟩
          rcases List.mem_cons.mp h1 with h3 | h3
          · subst h3
            exact List.mem_cons_self _ _
          · by_cases hkk : sym = k
            · subst hkk
              exact List.mem_cons_self _ _
            · refine List.mem_cons_of_mem _ (List.mem_append_right _ ((ih _).mpr ⟨h3, ?_⟩))
              rw [(start_lookup_other s k sym hkk).1]
              exact h2

lemma runStarts_events_other :
    ∀ (ss : List String) (s : RegState) (e : REvent), e ∈ (OrderBookCollector.runStarts ss s).2 →
      (∃ k, e = REvent.startCall k) ∨ (∃ k tid, e = REvent.spawnT k tid) ∨
        (∃ k, e = REvent.invalidSym k) := by
  intro ss
  induction ss with
  | nil => intro s e he; cases he
  | cons sym ss ih =>
      intro s e he
      by_cases hs : (lookupKey sym s.handles).isSome
      · rw [runStarts_cons_some sym ss s hs] at he
        exact ih s e he
      · have hnone : lookupKey sym s.handles = none := Option.not_isSome_iff_eq_none.mp hs
        rw [runStarts_cons_none sym ss s hnone] at he
        rcases List.mem_cons.mp he with h1 | h1
        · exact Or.inl ⟨sym, h1⟩
        · rcases List.mem_append.mp h1 with h2 | h2
          · rcases start_events_only s sym e h2 with ⟨sym', tid, hsp⟩ | ⟨sym', hsp⟩
            · exact Or.inr (Or.inl ⟨sym', tid, hsp⟩)
            · exact Or.inr (Or.inr ⟨sym', hsp⟩)
          · exact ih _ e h2

lemma start_multiple_eq (s : RegState) (d : List String) :
    OrderBookCollector.start_multiple s d =
      ((OrderBookCollector.runStarts d
          (OrderBookCollector.runStops d (s.handles.map Prod.fst) s).1).1,
        (OrderBookCollector.runStops d (s.handles.map Prod.fst) s).2 ++
          (OrderBookCollector.runStarts d
            (OrderBookCollector.runStops d (s.handles.map Prod.fst) s).1).2) := rfl

/-- A registry holding one running worker for `"A_B"`: its task handle has
identity 0 and its cancellation flag has identity 0 and value `true`. -/
def regEx : RegState :=
  { handles := [("A_B", 0)], alive := [("A_B", (0, true))], nextId := 1 }

/-- C1 counterexample: with a worker for `"A_B"` already registered,
`start "A_B"` is **not** a no-op — the registry changes and a fresh worker
task (identity 1) is spawned. -/
theorem C1_counterexample :
    (lookupKey "A_B" regEx.handles).isSome = true ∧
    (OrderBookCollector.start regEx "A_B").1 ≠ regEx ∧
    REvent.spawnT "A_B" 1 ∈ (OrderBookCollector.start regEx "A_B").2 := by decide

/-- C1 (amended): when a worker for a (parseable) symbol is already
registered, `start` spawns a **new** worker task whose handle replaces the
recorded one, reuses the existing cancellation flag storing `true` into it,
and consumes one fresh task identity; it is not a no-op (only
`start_multiple` guards `start` behind a registration check). -/
theorem C1_start_on_registered (s : RegState) (symbol : String) (tid fid : Nat) (b : Bool)
    (t : Ticker)
    (_hh : lookupKey symbol s.handles = some tid)
    (ha : lookupKey symbol s.alive = some (fid, b))
    (hv : Ticker.new symbol.toList = some t) :
    (OrderBookCollector.start s symbol).1.handles = upsert symbol s.nextId s.handles ∧
    lookupKey symbol (OrderBookCollector.start s symbol).1.handles = some s.nextId ∧
    (OrderBookCollector.start s symbol).1.alive = upsert symbol (fid, true) s.alive ∧
    (OrderBookCollector.start s symbol).1.nextId = s.nextId + 1 ∧
    (OrderBookCollector.start s symbol).2 = [REvent.spawnT symbol s.nextId] := by
  rw [start_of_valid_reuse s symbol t fid b hv ha]
  refine ⟨rfl, ?_, rfl, rfl, rfl⟩
  rw [lookupKey_upsert, if_pos rfl]

/-- Witness for C1 (amended) at the one-worker registry `regEx`. -/
theorem C1_start_on_registered_witness :
    (lookupKey "A_B" regEx.handles = some 0 ∧
      lookupKey "A_B" regEx.alive = some (0, true) ∧
      Ticker.new "A_B".toList = some (Ticker.mk "A".toList "B".toList)) ∧
    ((OrderBookCollector.start regEx "A_B").1.handles = upsert "A_B" regEx.nextId regEx.handles ∧
      lookupKey "A_B" (OrderBookCollector.start regEx "A_B").1.handles = some regEx.nextId ∧
      (OrderBookCollector.start regEx "A_B").1.alive = upsert "A_B" (0, true) regEx.alive ∧
      (OrderBookCollector.start regEx "A_B").1.nextId = regEx.nextId + 1 ∧
      (OrderBookCollector.start regEx "A_B").2 = [REvent.spawnT "A_B" regEx.nextId]) :=
  ⟨⟨by decide, by decide, by decide⟩,
   C1_start_on_registered regEx "A_B" 0 0 true (Ticker.mk "A".toList "B".toList)
     (by decide) (by decide) (by decide)⟩

/-- C3 counterexample: after `stop "A_B"` on `regEx` the task-handle entry is
gone, but the cancellation-flag record is **still present** in the `alive`
map (now storing `false`), so `stop` does not remove the whole entry. -/
theorem C3_counterexample :
    (lookupKey "A_B" regEx.alive).isSome = true ∧
    lookupKey "A_B" (OrderBookCollector.stop regEx "A_B").1.handles = none ∧
    lookupKey "A_B" (OrderBookCollector.stop regEx "A_B").1.alive = some (0, false) := by decide

/-- C3 (amended): `stop symbol` is a no-op when no cancellation-flag entry
exists; otherwise it stores `false` into the flag (the flag record stays in
the registry), removes the task-handle entry, joins the recorded task when
there is one (see the interleaving model for the blocking-until-exit
guarantee), touches no other symbol's entries, and allocates nothing. -/
theorem C3_stop_spec (s : RegState) (symbol : String) :
    (lookupKey symbol s.alive = none → OrderBookCollector.stop s symbol = (s, [])) ∧
    (∀ fid b, lookupKey symbol s.alive = some (fid, b) →
      lookupKey symbol (OrderBookCollector.stop s symbol).1.alive = some (fid, false) ∧
      lookupKey symbol (OrderBookCollector.stop s symbol).1.handles = none ∧
      (OrderBookCollector.stop s symbol).1.nextId = s.nextId ∧
      (∀ k, k ≠ symbol →
        lookupKey k (OrderBookCollector.stop s symbol).1.handles = lookupKey k s.handles ∧
        lookupKey k (OrderBookCollector.stop s symbol).1.alive = lookupKey k s.alive) ∧
      (∀ tid, lookupKey symbol s.handles = some tid →
        (OrderBookCollector.stop s symbol).2 = [REvent.joinT tid]) ∧
      (lookupKey symbol s.handles = none → (OrderBookCollector.stop s symbol).2 = [])) := by
  refine ⟨stop_of_alive_none s symbol, ?_⟩
  intro fid b ha
  have hst := stop_state_of_alive_some s symbol fid b ha
  refine ⟨?_, ?_, ?_, ?_, ?_, ?_⟩
  · rw [hst]
    show lookupKey symbol (upsert symbol (fid, false) s.alive) = some (fid, false)
    rw [lookupKey_upsert, if_pos rfl]
  · rw [hst]
    show lookupKey symbol (eraseKey symbol s.handles) = none
    rw [lookupKey_eraseKey, if_pos rfl]
  · rw [hst]
  · intro k hk
    rw [hst]
    constructor
    · show lookupKey k (eraseKey symbol s.handles) = lookupKey k s.handles
      rw [lookupKey_eraseKey, if_neg (fun h => hk h.symm)]
    · show lookupKey k (upsert symbol (fid, false) s.alive) = lookupKey k s.alive
      rw [lookupKey_upsert, if_neg (fun h => hk h.symm)]
  · intro tid hh
    exact stop_events_join s symbol fid b tid ha hh
  · intro hh
    exact stop_events_nohandle s symbol fid b ha hh

/-- Witness for C3 (amended) at `regEx`, exercising the registered branch. -/
theorem C3_stop_spec_witness :
    lookupKey "A_B" regEx.alive = some (0, true) ∧
    (lookupKey "A_B" (OrderBookCollector.stop regEx "A_B").1.alive = some (0, false) ∧
      lookupKey "A_B" (OrderBookCollector.stop regEx "A_B").1.handles = none ∧
      (OrderBookCollector.stop regEx "A_B").1.nextId = regEx.nextId ∧
      (∀ k, k ≠ "A_B" →
        lookupKey k (OrderBookCollector.stop regEx "A_B").1.handles = lookupKey k regEx.handles ∧
        lookupKey k (OrderBookCollector.stop regEx "A_B").1.alive = lookupKey k regEx.alive) ∧
      (∀ tid, lookupKey "A_B" regEx.handles = some tid →
        (OrderBookCollector.stop regEx "A_B").2 = [REvent.joinT tid]) ∧
      (lookupKey "A_B" regEx.handles = none → (OrderBookCollector.stop regEx "A_B").2 = [])) :=
  ⟨by decide, (C3_stop_spec regEx "A_B").2 0 true (by decide)⟩

/-- C5: a symbol that is both running and desired keeps the identical,
uninterrupted registry entry across `start_multiple`: the same task handle
and the same cancellation flag (same identity, value still `true` —
unchanged in general). -/
theorem C5_kept_worker_untouched (s : RegState) (desired : List String) (a : String)
    (tid : Nat) (fl : Nat × Bool)
    (hh : lookupKey a s.handles = some tid)
    (ha : lookupKey a s.alive = some fl)
    (hd : a ∈ desired) :
    lookupKey a (OrderBookCollector.start_multiple s desired).1.handles = some tid ∧
    lookupKey a (OrderBookCollector.start_multiple s desired).1.alive = some fl := by
  rw [start_multiple_eq]
  have h1 := runStops_preserves_desired desired a hd (s.handles.map Prod.fst) s
  have hh1 : lookupKey a
      (OrderBookCollector.runStops desired (s.handles.map Prod.fst) s).1.handles = some tid :=
    h1.1.trans hh
  have ha1 : lookupKey a
      (OrderBookCollector.runStops desired (s.handles.map Prod.fst) s).1.alive = some fl :=
    h1.2.trans ha
  have h2 := runStarts_preserves_handle a tid desired _ hh1
  exact ⟨h2.1, h2.2.trans ha1⟩

/-- A registry holding running workers for `"A_B"` (task 0, flag 10) and
`"C_D"` (task 1, flag 11). -/
def regEx2 : RegState :=
  { handles := [("A_B", 0), ("C_D", 1)],
    alive := [("A_B", (10, true)), ("C_D", (11, true))],
    nextId := 2 }

/-- Witness for C5: reconciling `regEx2` to the desired set `["A_B"]` keeps
`"A_B"`'s task handle 0 and flag `(10, true)` untouched. -/
theorem C5_kept_worker_untouched_witness :
    (lookupKey "A_B" regEx2.handles = some 0 ∧
      lookupKey "A_B" regEx2.alive = some (10, true) ∧ "A_B" ∈ ["A_B"]) ∧
    (lookupKey "A_B" (OrderBookCollector.start_multiple regEx2 ["A_B"]).1.handles = some 0 ∧
      lookupKey "A_B" (OrderBookCollector.start_multiple regEx2 ["A_B"]).1.alive =
        some (10, true)) :=
  ⟨⟨by decide, by decide, by decide⟩,
   C5_kept_worker_untouched regEx2 ["A_B"] "A_B" 0 (10, true)
     (by decide) (by decide) (by decide)⟩

/-- C4: on a well-formed registry (every recorded handle has a flag record),
`start_multiple` calls `stop` exactly for the running symbols not desired
and calls `start` exactly for the desired symbols not running (the `stop`
calls all precede the `start` calls in the event log by construction), and
an immediately repeated call with the same desired list leaves the registry
state unchanged and spawns no task. -/
theorem C4_start_multiple_reconcile (s : RegState) (desired : List String)
    (hwf : ∀ k ∈ s.handles.map Prod.fst, (lookupKey k s.alive).isSome) :
    (∀ k, REvent.stopCall k ∈ (OrderBookCollector.start_multiple s desired).2 ↔
        (lookupKey k s.handles).isSome ∧ k ∉ desired) ∧
    (∀ k, REvent.startCall k ∈ (OrderBookCollector.start_multiple s desired).2 ↔
        k ∈ desired ∧ lookupKey k s.handles = none) ∧
    (OrderBookCollector.start_multiple
        (OrderBookCollector.start_multiple s desired).1 desired).1 =
      (OrderBookCollector.start_multiple s desired).1 ∧
    (∀ sym tid, REvent.spawnT sym tid ∉
        (OrderBookCollector.start_multiple
          (OrderBookCollector.start_multiple s desired).1 desired).2) := by
  have hafter : ∀ k, k ∉ desired →
      lookupKey k (OrderBookCollector.start_multiple s desired).1.handles = none := by
    intro k hkd
    rw [start_multiple_eq]
    have hnm := runStarts_not_mem k desired
        (OrderBookCollector.runStops desired (s.handles.map Prod.fst) s).1 hkd
    rw [hnm.1]
    cases hcase : lookupKey k s.handles with
    | none => exact runStops_handles_none desired k (s.handles.map Prod.fst) s hcase
    | some v =>
        have hmem : k ∈ s.handles.map Prod.fst :=
          (lookupKey_isSome_iff_mem k s.handles).mp (by rw [hcase]; rfl)
        exact runStops_removes desired k hkd (s.handles.map Prod.fst) s hmem (hwf k hmem)
  have hstarted : ∀ sym ∈ desired, Ticker.new sym.toList ≠ none →
      (lookupKey sym (OrderBookCollector.start_multiple s desired).1.handles).isSome := by
    intro sym hmem hv
    cases ht : Ticker.new sym.toList with
    | none => exact absurd ht hv
    | some t =>
        rw [start_multiple_eq]
        exact runStarts_started sym t ht desired _ hmem
  refine ⟨?_, ?_, ?_, ?_⟩
  · intro k
    rw [start_multiple_eq]
    constructor
    · intro h
      rcases List.mem_append.mp h with h1 | h1
      · rcases (runStops_stopCall_iff desired k (s.handles.map Prod.fst) s).mp h1 with ⟨h2, h3⟩
        exact ⟨(lookupKey_isSome_iff_mem k s.handles).mpr h2, h3⟩
      · rcases runStarts_events_other desired _ _ h1 with ⟨k', hsp⟩ | ⟨k', tid, hsp⟩ | ⟨k', hsp⟩
        · cases hsp
        · cases hsp
        · cases hsp
    · rintro ⟨h1, h2⟩
      exact List.mem_append_left _
        ((runStops_stopCall_iff desired k (s.handles.map Prod.fst) s).mpr
          ⟨(lookupKey_isSome_iff_mem k s.handles).mp h1, h2⟩)
  · intro k
    rw [start_multiple_eq]
    constructor
    · intro h
      rcases List.mem_append.mp h with h1 | h1
      · rcases runStops_events_other desired _ _ _ h1 with ⟨k', hsp⟩ | ⟨tid, hsp⟩
        · cases hsp
        · cases hsp
      · rcases (runStarts_startCall_iff k desired _).mp h1 with ⟨h2, h3⟩
        refine ⟨h2, ?_⟩
        rw [← (runStops_preserves_desired desired k h2 (s.handles.map Prod.fst) s).1]
        exact h3
    · rintro ⟨h1, h2⟩
      refine List.mem_append_right _ ((runStarts_startCall_iff k desired _).mpr ⟨h1, ?_⟩)
      rw [(runStops_preserves_desired desired k h1 (s.handles.map Prod.fst) s).1]
      exact h2
  · have hnoop1 : OrderBookCollector.runStops desired
        ((OrderBookCollector.start_multiple s desired).1.handles.map Prod.fst)
        (OrderBookCollector.start_multiple s desired).1 =
        ((OrderBookCollector.start_multiple s desired).1, []) := by
      apply runStops_noop
      intro k hk
      by_contra hkd
      have hsome := (lookupKey_isSome_iff_mem k _).mpr hk
      rw [hafter k hkd] at hsome
      simp at hsome
    have hnoop2 := runStarts_noop desired (OrderBookCollector.start_multiple s desired).1
      (fun sym hmem hnone => by
        by_contra hv
        have := hstarted sym hmem hv
        rw [hnone] at this
        cases this)
    rw [start_multiple_eq
        (OrderBookCollector.start_multiple s desired).1 desired, hnoop1]
    exact hnoop2.1
  · intro sym tid
    have hnoop1 : OrderBookCollector.runStops desired
        ((OrderBookCollector.start_multiple s desired).1.handles.map Prod.fst)
        (OrderBookCollector.start_multiple s desired).1 =
        ((OrderBookCollector.start_multiple s desired).1, []) := by
      apply runStops_noop
      intro k hk
      by_contra hkd
      have hsome := (lookupKey_isSome_iff_mem k _).mpr hk
      rw [hafter k hkd] at hsome
      simp at hsome
    have hnoop2 := runStarts_noop desired (OrderBookCollector.start_multiple s desired).1
      (fun sym' hmem hnone => by
        by_contra hv
        have := hstarted sym' hmem hv
        rw [hnone] at this
        cases this)
    rw [start_multiple_eq
        (OrderBookCollector.start_multiple s desired).1 desired, hnoop1]
    intro hmem
    rcases List.mem_append.mp hmem with h1 | h1
    · cases h1
    · exact hnoop2.2 sym tid h1

/-- Witness for C4: reconciling `regEx2` to `["A_B", "E_F"]` and repeating;
the repeated call leaves the registry unchanged. -/
theorem C4_start_multiple_reconcile_witness :
    (∀ k ∈ regEx2.handles.map Prod.fst, (lookupKey k regEx2.alive).isSome) ∧
    (OrderBookCollector.start_multiple
        (OrderBookCollector.start_multiple regEx2 ["A_B", "E_F"]).1 ["A_B", "E_F"]).1 =
      (OrderBookCollector.start_multiple regEx2 ["A_B", "E_F"]).1 :=
  ⟨by decide,
   (C4_start_multiple_reconcile regEx2 ["A_B", "E_F"] (by decide)).2.2.1⟩

/-! ## Interleaving model of one worker task versus `stop`

One running worker (lines 132–165 of `orderbook_collector.rs`) interleaved
with one `stop` call for its symbol.  The worker reads the shared
`AtomicBool` only at the top of its loop; an iteration already in flight
may still append to the file after the flag was cleared.  `stop` first
stores `false` into the flag, then joins: the join can only complete once
the worker task has fully exited, which is exactly the precondition of the
`stopJoins` transition. -/

/-- Program counter of the worker task: at the loop-head flag check, inside
one fetch-and-save iteration, or terminated. -/
inductive WorkerPC where
  | loopTop
  | midIter
  | exited
  deriving DecidableEq

/-- Joint state of the shared flag, the worker task and the `stop` caller,
with a counter of file appends performed by the worker. -/
structure LifeState where
  alive : Bool
  pc : WorkerPC
  stopReturned : Bool
  writesDone : Nat
  deriving DecidableEq

/-- Labels of the observable transitions. -/
inductive WLabel where
  | enterL
  | writeL
  | failL
  | exitL
  | stopSet
  | stopRet
  deriving DecidableEq

/-- Interleaved transitions: the worker checks the flag at the loop top and
either enters an iteration or exits; an iteration ends with a file append
(`writeL`, successful fetch) or only a log line (`failL`, failed fetch);
`stop` stores `false` (`stopSet`) and later returns from the join
(`stopRet`), which requires the worker to have exited. -/
inductive LifeStep : LifeState → WLabel → LifeState → Prop where
  | enterIter (s : LifeState) (h1 : s.pc = WorkerPC.loopTop) (h2 : s.alive = true) :
      LifeStep s WLabel.enterL { s with pc := WorkerPC.midIter }
  | observeStop (s : LifeState) (h1 : s.pc = WorkerPC.loopTop) (h2 : s.alive = false) :
      LifeStep s WLabel.exitL { s with pc := WorkerPC.exited }
  | iterWrite (s : LifeState) (h1 : s.pc = WorkerPC.midIter) :
      LifeStep s WLabel.writeL
        { s with pc := WorkerPC.loopTop, writesDone := s.writesDone + 1 }
  | iterFail (s : LifeState) (h1 : s.pc = WorkerPC.midIter) :
      LifeStep s WLabel.failL { s with pc := WorkerPC.loopTop }
  | stopSets (s : LifeState) (h : s.stopReturned = false) :
      LifeStep s WLabel.stopSet { s with alive := false }
  | stopJoins (s : LifeState) (h1 : s.stopReturned = false) (h2 : s.alive = false)
      (h3 : s.pc = WorkerPC.exited) :
      LifeStep s WLabel.stopRet { s with stopReturned := true }

/-- Finite interleaved executions, as a labelled trace. -/
inductive LifeSteps : LifeState → List WLabel → LifeState → Prop where
  | nil (s : LifeState) : LifeSteps s [] s
  | cons {s s' s'' : LifeState} {l : WLabel} {tr : List WLabel} :
      LifeStep s l s' → LifeSteps s' tr s'' → LifeSteps s (l :: tr) s''

lemma lifeSteps_append :
    ∀ (tr1 : List WLabel) {tr2 : List WLabel} {s s'' : LifeState},
      LifeSteps s (tr1 ++ tr2) s'' →
      ∃ s1, LifeSteps s tr1 s1 ∧ LifeSteps s1 tr2 s'' := by
  intro tr1
  induction tr1 with
  | nil => intro tr2 s s'' h; exact ⟨s, LifeSteps.nil s, h⟩
  | cons l tr ih =>
      intro tr2 s s'' h
      cases h with
      | cons hstep hrest =>
          rcases ih hrest with ⟨s1, ha, hb⟩
          exact ⟨s1, LifeSteps.cons hstep ha, hb⟩

lemma steps_no_write_of_exited :
    ∀ (tr : List WLabel) (s s' : LifeState), s.pc = WorkerPC.exited →
      LifeSteps s tr s' → WLabel.writeL ∉ tr := by
  intro tr
  induction tr with
  | nil => intro s s' _ _ h; cases h
  | cons l tr ih =>
      intro s s' hpc h
      cases h with
      | cons hstep hrest =>
          intro hmem
          rcases List.mem_cons.mp hmem with h1 | h1
          · subst h1
            cases hstep with
            | iterWrite hmid => rw [hpc] at hmid; cases hmid
          · cases hstep with
            | enterIter hq1 hq2 => rw [hpc] at hq1; cases hq1
            | observeStop hq1 hq2 => rw [hpc] at hq1; cases hq1
            | iterWrite hq1 => rw [hpc] at hq1; cases hq1
            | iterFail hq1 => rw [hpc] at hq1; cases hq1
            | stopSets hq =>
                refine ih _ _ ?_ hrest h1
                exact hpc
            | stopJoins hq1 hq2 hq3 =>
                refine ih _ _ ?_ hrest h1
                exact hpc

/-- C2: in every interleaved execution, once `stop` has returned from its
join, no further file write is performed by that symbol's worker task:
`writeL` never occurs after `stopRet` in a trace. -/
theorem C2_no_write_after_stop_returns :
    ∀ (s0 : LifeState) (tr1 tr2 : List WLabel) (s : LifeState),
      LifeSteps s0 (tr1 ++ WLabel.stopRet :: tr2) s → WLabel.writeL ∉ tr2 := by
  intro s0 tr1 tr2 s h
  rcases lifeSteps_append tr1 h with ⟨s1, _, hrest⟩
  cases hrest with
  | cons hstep htail =>
      cases hstep with
      | stopJoins hq1 hq2 hq3 =>
          refine steps_no_write_of_exited tr2 _ _ ?_ htail
          exact hq3

/-- Witness for C2: the execution in which the worker completes one
successful iteration, `stop` clears the flag, the worker observes it and
exits, and the join returns. -/
theorem C2_no_write_after_stop_returns_witness :
    LifeSteps (LifeState.mk true WorkerPC.loopTop false 0)
      ([WLabel.enterL, WLabel.writeL, WLabel.stopSet, WLabel.exitL] ++
        WLabel.stopRet :: [])
      (LifeState.mk false WorkerPC.exited true 1) ∧
    WLabel.writeL ∉ ([] : List WLabel) := by
  have hd : LifeSteps (LifeState.mk true WorkerPC.loopTop false 0)
      ([WLabel.enterL, WLabel.writeL, WLabel.stopSet, WLabel.exitL] ++
        WLabel.stopRet :: [])
      (LifeState.mk false WorkerPC.exited true 1) :=
    LifeSteps.cons (LifeStep.enterIter _ rfl rfl)
      (LifeSteps.cons (LifeStep.iterWrite _ rfl)
        (LifeSteps.cons (LifeStep.stopSets _ rfl)
          (LifeSteps.cons (LifeStep.observeStop _ rfl rfl)
            (LifeSteps.cons (LifeStep.stopJoins _ rfl rfl rfl)
              (LifeSteps.nil _)))))
  exact ⟨hd, C2_no_write_after_stop_returns _ _ _ _ hd⟩
